import Mathlib

/-!
Verification of the matchmaking / signaling server (server/src/index.js,
the enhanced implementation).

The server keeps three pieces of mutable state:
  * `waitingQueue` — an array of user records `{socketId, joinedAt, ...}`;
  * `peers`        — a `Map` from socket id to partner socket id;
  * `userInfo`     — a `Map` from socket id to the user record made at connect.
Together with the transport's set of open sockets (`io.sockets.sockets`)
this is embedded below as `ServerState`.  JavaScript `Map`s are embedded
as association lists with `Map.get` / `Map.set` / `Map.delete` semantics
(`mapGet`, `mapSet`, `mapDelete`): `set` overwrites an existing key in
place, otherwise appends; `delete` removes the key's entry.

Each socket event handler becomes a pure function from a state (plus the
event's data) to the new state paired with the list of messages the
handler emits, in emission order.  Signal payloads are opaque to the
server, so the message type is polymorphic in the payload type `α`.
The `userAgent` field of user records and all `console.log` output are
not modelled: they are never read back by the server.
-/

namespace Anologia

/-- Socket ids as handed out by the transport layer. -/
abbrev ConnId := String

/-- The user record built at connect time (`{socketId, joinedAt, userAgent}`
from the source; `userAgent` is write-only logging data and is dropped).
`joinedAt` is the `Date` timestamp in milliseconds. -/
structure WaitingUser where
  socketId : ConnId
  joinedAt : Int
deriving DecidableEq, Repr

/-- `Map.get`: value of the first entry with the given key. -/
def mapGet {β : Type} (m : List (ConnId × β)) (k : ConnId) : Option β :=
  match m with
  | [] => none
  | (a, b) :: rest => if a = k then some b else mapGet rest k

/-- `Map.set`: overwrite the entry with the given key in place, otherwise
append a new entry at the end (JavaScript `Map` insertion-order semantics). -/
def mapSet {β : Type} (m : List (ConnId × β)) (k : ConnId) (v : β) :
    List (ConnId × β) :=
  match m with
  | [] => [(k, v)]
  | (a, b) :: rest => if a = k then (k, v) :: rest else (a, b) :: mapSet rest k v

/-- `Map.delete`: drop the entry with the given key (every entry with that
key; the maps built by these operations never hold a key twice). -/
def mapDelete {β : Type} (m : List (ConnId × β)) (k : ConnId) :
    List (ConnId × β) :=
  match m with
  | [] => []
  | (a, b) :: rest =>
      if a = k then mapDelete rest k else (a, b) :: mapDelete rest k

/-- The complete mutable state of the server process, together with the
transport-level set of open sockets that the handlers consult through
`io.sockets.sockets.has`. -/
structure ServerState where
  waitingQueue : List WaitingUser
  peers : List (ConnId × ConnId)
  userInfo : List (ConnId × Int)
  openSockets : List ConnId
deriving DecidableEq, Repr

/-- The state of the freshly started process: everything empty. -/
def initialState : ServerState := ⟨[], [], [], []⟩

/-- The messages the server emits, tagged with their event name.
`α` is the opaque signal payload type. -/
inductive Msg (α : Type) : Type where
  | matchFound (peerSocketId : ConnId) (isInitiator : Bool)
  | waitingForPeer
  | signalMsg (payload : α)
  | peerDisconnected
  | errorMsg (message : String)
deriving DecidableEq, Repr

/-- One emission: the target socket id and the message sent to it. -/
abbrev Emit (α : Type) := ConnId × Msg α

/-- `findMatch`: `waitingQueue.shift()` — pop the head of the queue and
return its socket id, or `none` on an empty queue.  Returned together
with the remaining queue, since the source mutates the array in place. -/
def findMatch (queue : List WaitingUser) : Option (ConnId × List WaitingUser) :=
  match queue with
  | [] => none
  | matchedUser :: rest => some (matchedUser.socketId, rest)

/-- The `io.on("connection")` handler body for a fresh socket `id` at time
`now`: record the user in `userInfo`, then either pair with the queue head
(queue user becomes initiator) or enqueue and emit `waiting-for-peer`.
The transport has just added `id` to the open-socket set. -/
def onConnect (α : Type) (s : ServerState) (id : ConnId) (now : Int) :
    ServerState × List (Emit α) :=
  let user : WaitingUser := ⟨id, now⟩
  let s0 : ServerState :=
    { s with openSockets := id :: s.openSockets
             userInfo := mapSet s.userInfo id now }
  match findMatch s0.waitingQueue with
  | some (peerSocketId, rest) =>
      ({ s0 with waitingQueue := rest
                 peers := mapSet (mapSet s0.peers id peerSocketId) peerSocketId id },
       [(peerSocketId, Msg.matchFound id true),
        (id, Msg.matchFound peerSocketId false)])
  | none =>
      ({ s0 with waitingQueue := s0.waitingQueue ++ [user] },
       [(id, Msg.waitingForPeer)])

/-- The `socket.on("signal")` handler: relay the payload verbatim to the
recorded partner when that partner's socket is still open, otherwise emit
`error{message: "No active peer connection"}` back to the sender.  The
state is never changed. -/
def onSignal (α : Type) (s : ServerState) (id : ConnId) (payload : α) :
    ServerState × List (Emit α) :=
  match mapGet s.peers id with
  | some peerSocketId =>
      if s.openSockets.contains peerSocketId then
        (s, [(peerSocketId, Msg.signalMsg payload)])
      else
        (s, [(id, Msg.errorMsg "No active peer connection")])
  | none => (s, [(id, Msg.errorMsg "No active peer connection")])

/-- The `socket.on("find-next")` handler: notify and unlink the current
partner if any, then re-run `findMatch`; on a match pair up and emit the
two `match-found` messages, otherwise push the connect-time user record
(original `joinedAt`, read back from `userInfo`; `0` is an unreachable
default for sockets that were never connected) and emit `waiting-for-peer`. -/
def onFindNext (α : Type) (s : ServerState) (id : ConnId) :
    ServerState × List (Emit α) :=
  let user : WaitingUser := ⟨id, (mapGet s.userInfo id).getD 0⟩
  let step1 : ServerState × List (Emit α) :=
    match mapGet s.peers id with
    | some currentPeer =>
        ({ s with peers := mapDelete (mapDelete s.peers currentPeer) id },
         [(currentPeer, Msg.peerDisconnected)])
    | none => (s, [])
  let s1 := step1.1
  match findMatch s1.waitingQueue with
  | some (newPeerSocketId, rest) =>
      ({ s1 with waitingQueue := rest
                 peers := mapSet (mapSet s1.peers id newPeerSocketId) newPeerSocketId id },
       step1.2 ++
        [(newPeerSocketId, Msg.matchFound id true),
         (id, Msg.matchFound newPeerSocketId false)])
  | none =>
      ({ s1 with waitingQueue := s1.waitingQueue ++ [user] },
       step1.2 ++ [(id, Msg.waitingForPeer)])

/-- `cleanupUser`: remove the pairing (both directions) if `id` has one,
filter `id` out of the waiting queue, and drop its `userInfo` record. -/
def cleanupUser (s : ServerState) (id : ConnId) : ServerState :=
  let peersAfter :=
    match mapGet s.peers id with
    | some peerSocketId => mapDelete (mapDelete s.peers peerSocketId) id
    | none => s.peers
  { s with peers := peersAfter
           waitingQueue := s.waitingQueue.filter (fun u => u.socketId ≠ id)
           userInfo := mapDelete s.userInfo id }

/-- The `socket.on("disconnect")` handler: emit `peer-disconnected` to the
partner when it exists and its socket is still open, then `cleanupUser`.
The transport removes `id` from the open-socket set. -/
def onDisconnect (α : Type) (s : ServerState) (id : ConnId) :
    ServerState × List (Emit α) :=
  let ems : List (Emit α) :=
    match mapGet s.peers id with
    | some peerSocketId =>
        if s.openSockets.contains peerSocketId then
          [(peerSocketId, Msg.peerDisconnected)]
        else []
    | none => []
  let s0 : ServerState :=
    { s with openSockets := s.openSockets.filter (fun x => x ≠ id) }
  (cleanupUser s0 id, ems)

/-- The queue-entry timeout of the periodic sweep: `5 * 60 * 1000` ms. -/
def queueTimeoutMs : Int := 5 * 60 * 1000

/-- The period of the `setInterval` sweep: `60000` ms. -/
def sweepIntervalMs : Int := 60000

/-- The body of the periodic `setInterval` sweep: keep exactly the queue
entries that are not expired (`now - joinedAt > timeout`).  Nothing is
emitted and no other state is touched. -/
def expireSweep (α : Type) (s : ServerState) (now : Int) :
    ServerState × List (Emit α) :=
  ({ s with waitingQueue :=
      s.waitingQueue.filter (fun user => ¬(now - user.joinedAt > queueTimeoutMs)) },
   ([] : List (Emit α)))

/-! Section: Association-list map lemmas -/

theorem mapGet_mapSet {β : Type} (m : List (ConnId × β)) (k : ConnId) (v : β)
    (a : ConnId) :
    mapGet (mapSet m k v) a = if a = k then some v else mapGet m a := by
  induction m with
  | nil =>
    by_cases h : a = k
    · subst h; simp [mapSet, mapGet]
    · simp [mapSet, mapGet, h, Ne.symm h]
  | cons p rest ih =>
    obtain ⟨x, y⟩ := p
    by_cases hx : x = k
    · subst hx
      by_cases h : a = x
      · subst h; simp [mapSet, mapGet]
      · simp [mapSet, mapGet, h, Ne.symm h]
    · by_cases h : x = a
      · subst h
        simp [mapSet, mapGet, hx, Ne.symm hx]
      · simp [mapSet, mapGet, hx, h, ih]

theorem mapGet_mapDelete {β : Type} (m : List (ConnId × β)) (k a : ConnId) :
    mapGet (mapDelete m k) a = if a = k then none else mapGet m a := by
  induction m with
  | nil => simp [mapDelete, mapGet]
  | cons p rest ih =>
    obtain ⟨x, y⟩ := p
    by_cases hx : x = k
    · subst hx
      by_cases h : a = x
      · subst h; simp [mapDelete, mapGet, ih]
      · simp [mapDelete, mapGet, h, Ne.symm h, ih]
    · by_cases h : x = a
      · subst h
        simp [mapDelete, mapGet, hx, Ne.symm hx]
      · simp [mapDelete, mapGet, hx, h, ih]

/-- Read of a pairing removal `peers.delete(q); peers.delete(id)`. -/
theorem mapGet_pairDelete (m : List (ConnId × ConnId)) (q id a : ConnId) :
    mapGet (mapDelete (mapDelete m q) id) a =
      if a = id then none else if a = q then none else mapGet m a := by
  rw [mapGet_mapDelete, mapGet_mapDelete]

/-- Read of a pairing insertion `peers.set(id, np); peers.set(np, id)`. -/
theorem mapGet_pairExtend (m : List (ConnId × ConnId)) (id np a : ConnId) :
    mapGet (mapSet (mapSet m id np) np id) a =
      if a = np then some id else if a = id then some np else mapGet m a := by
  rw [mapGet_mapSet, mapGet_mapSet]

/-! Section: The reachable-state invariant -/

/-- Symmetry of the peer map: every pairing is recorded in both directions. -/
def Symm (m : List (ConnId × ConnId)) : Prop :=
  ∀ a b, mapGet m a = some b → mapGet m b = some a

/-- A socket id the Matchmaker has not seen yet: not a key of `peers` and
not in the waiting queue.  This is the `OnConnect` precondition — the
transport hands out fresh socket ids. -/
def Fresh (s : ServerState) (id : ConnId) : Prop :=
  mapGet s.peers id = none ∧ ∀ u ∈ s.waitingQueue, u.socketId ≠ id

/-- The inductive state invariant: the peer map is symmetric, the waiting
queue never holds more than one entry (every push happens on an empty
queue), and no queued socket is a key of the peer map. -/
def Inv (s : ServerState) : Prop :=
  Symm s.peers ∧ s.waitingQueue.length ≤ 1 ∧
    ∀ u ∈ s.waitingQueue, mapGet s.peers u.socketId = none

/-- The states the server can be in: everything generated from the empty
initial state by the five event handlers (signal payloads do not touch the
state, so `Unit` payloads lose no generality — see `onSignal_state`). -/
inductive Reachable : ServerState → Prop where
  | init : Reachable initialState
  | connect (s : ServerState) (id : ConnId) (now : Int) :
      Reachable s → Fresh s id → Reachable (onConnect Unit s id now).1
  | signal (s : ServerState) (id : ConnId) (payload : Unit) :
      Reachable s → Reachable (onSignal Unit s id payload).1
  | findNext (s : ServerState) (id : ConnId) :
      Reachable s → Reachable (onFindNext Unit s id).1
  | disconnect (s : ServerState) (id : ConnId) :
      Reachable s → Reachable (onDisconnect Unit s id).1
  | sweep (s : ServerState) (now : Int) :
      Reachable s → Reachable (expireSweep Unit s now).1

/-- Removing a pairing in both directions keeps the map symmetric. -/
theorem Symm.pairDelete {m : List (ConnId × ConnId)} {id q : ConnId}
    (hS : Symm m) (hq : mapGet m id = some q) :
    Symm (mapDelete (mapDelete m q) id) := by
  intro a b h
  rw [mapGet_pairDelete] at h
  by_cases ha1 : a = id
  · rw [if_pos ha1] at h
    exact absurd h (by simp)
  · rw [if_neg ha1] at h
    by_cases ha2 : a = q
    · rw [if_pos ha2] at h
      exact absurd h (by simp)
    · rw [if_neg ha2] at h
      have hb := hS a b h
      rw [mapGet_pairDelete]
      by_cases hb1 : b = id
      · rw [hb1, hq] at hb
        exact absurd (Option.some.inj hb).symm ha2
      · by_cases hb2 : b = q
        · rw [hb2, hS id q hq] at hb
          exact absurd (Option.some.inj hb).symm ha1
        · rw [if_neg hb1, if_neg hb2]
          exact hb

/-- Adding a pairing in both directions between two unpaired sockets keeps
the map symmetric (including the degenerate self-pairing `id = np`). -/
theorem Symm.pairExtend {m : List (ConnId × ConnId)} {id np : ConnId}
    (hS : Symm m) (hid : mapGet m id = none) (hnp : mapGet m np = none) :
    Symm (mapSet (mapSet m id np) np id) := by
  intro a b h
  rw [mapGet_pairExtend] at h
  rw [mapGet_pairExtend]
  by_cases ha1 : a = np
  · rw [if_pos ha1] at h
    have hb : b = id := (Option.some.inj h).symm
    rw [hb]
    by_cases hin : id = np
    · rw [if_pos hin, ha1, hin]
    · rw [if_neg hin, if_pos (rfl : id = id), ha1]
  · rw [if_neg ha1] at h
    by_cases ha2 : a = id
    · rw [if_pos ha2] at h
      have hb : b = np := (Option.some.inj h).symm
      rw [hb, if_pos (rfl : np = np), ha2]
    · rw [if_neg ha2] at h
      have hb := hS a b h
      by_cases hb1 : b = np
      · rw [hb1, hnp] at hb
        simp at hb
      · by_cases hb2 : b = id
        · rw [hb2, hid] at hb
          simp at hb
        · rw [if_neg hb1, if_neg hb2]
          exact hb

/-- A key that is unpaired stays unpaired under a two-sided delete. -/
theorem mapGet_pairDelete_of_none {m : List (ConnId × ConnId)} {q id a : ConnId}
    (h : mapGet m a = none) :
    mapGet (mapDelete (mapDelete m q) id) a = none := by
  rw [mapGet_pairDelete]
  by_cases h1 : a = id <;> by_cases h2 : a = q <;> simp [h1, h2, h]

/-! Section: Shape lemmas: one per handler branch -/

theorem onConnect_empty (α : Type) (s : ServerState) (id : ConnId) (now : Int)
    (hq : s.waitingQueue = []) :
    onConnect α s id now =
      ({ waitingQueue := [⟨id, now⟩], peers := s.peers,
         userInfo := mapSet s.userInfo id now,
         openSockets := id :: s.openSockets },
       [(id, Msg.waitingForPeer)]) := by
  simp [onConnect, findMatch, hq]

theorem onConnect_cons (α : Type) (s : ServerState) (id : ConnId) (now : Int)
    (u : WaitingUser) (rest : List WaitingUser)
    (hq : s.waitingQueue = u :: rest) :
    onConnect α s id now =
      ({ waitingQueue := rest,
         peers := mapSet (mapSet s.peers id u.socketId) u.socketId id,
         userInfo := mapSet s.userInfo id now,
         openSockets := id :: s.openSockets },
       [(u.socketId, Msg.matchFound id true),
        (id, Msg.matchFound u.socketId false)]) := by
  simp [onConnect, findMatch, hq]

theorem onSignal_state (α : Type) (s : ServerState) (id : ConnId) (payload : α) :
    (onSignal α s id payload).1 = s := by
  unfold onSignal
  cases mapGet s.peers id with
  | none => rfl
  | some q =>
    dsimp only
    split <;> rfl

theorem onFindNext_paired_cons (α : Type) (s : ServerState) (id q : ConnId)
    (u : WaitingUser) (rest : List WaitingUser)
    (hp : mapGet s.peers id = some q) (hq : s.waitingQueue = u :: rest) :
    onFindNext α s id =
      ({ waitingQueue := rest,
         peers := mapSet (mapSet (mapDelete (mapDelete s.peers q) id) id
           u.socketId) u.socketId id,
         userInfo := s.userInfo, openSockets := s.openSockets },
       [(q, Msg.peerDisconnected), (u.socketId, Msg.matchFound id true),
        (id, Msg.matchFound u.socketId false)]) := by
  simp [onFindNext, findMatch, hp, hq]

theorem onFindNext_paired_nil (α : Type) (s : ServerState) (id q : ConnId)
    (hp : mapGet s.peers id = some q) (hq : s.waitingQueue = []) :
    onFindNext α s id =
      ({ waitingQueue := [⟨id, (mapGet s.userInfo id).getD 0⟩],
         peers := mapDelete (mapDelete s.peers q) id,
         userInfo := s.userInfo, openSockets := s.openSockets },
       [(q, Msg.peerDisconnected), (id, Msg.waitingForPeer)]) := by
  simp [onFindNext, findMatch, hp, hq]

theorem onFindNext_unpaired_cons (α : Type) (s : ServerState) (id : ConnId)
    (u : WaitingUser) (rest : List WaitingUser)
    (hp : mapGet s.peers id = none) (hq : s.waitingQueue = u :: rest) :
    onFindNext α s id =
      ({ waitingQueue := rest,
         peers := mapSet (mapSet s.peers id u.socketId) u.socketId id,
         userInfo := s.userInfo, openSockets := s.openSockets },
       [(u.socketId, Msg.matchFound id true),
        (id, Msg.matchFound u.socketId false)]) := by
  simp [onFindNext, findMatch, hp, hq]

theorem onFindNext_unpaired_nil (α : Type) (s : ServerState) (id : ConnId)
    (hp : mapGet s.peers id = none) (hq : s.waitingQueue = []) :
    onFindNext α s id =
      ({ waitingQueue := [⟨id, (mapGet s.userInfo id).getD 0⟩],
         peers := s.peers,
         userInfo := s.userInfo, openSockets := s.openSockets },
       [(id, Msg.waitingForPeer)]) := by
  simp [onFindNext, findMatch, hp, hq]

theorem cleanupUser_paired (s : ServerState) (id q : ConnId)
    (hp : mapGet s.peers id = some q) :
    cleanupUser s id =
      { waitingQueue := s.waitingQueue.filter (fun u => u.socketId ≠ id),
        peers := mapDelete (mapDelete s.peers q) id,
        userInfo := mapDelete s.userInfo id,
        openSockets := s.openSockets } := by
  simp [cleanupUser, hp]

theorem cleanupUser_unpaired (s : ServerState) (id : ConnId)
    (hp : mapGet s.peers id = none) :
    cleanupUser s id =
      { waitingQueue := s.waitingQueue.filter (fun u => u.socketId ≠ id),
        peers := s.peers,
        userInfo := mapDelete s.userInfo id,
        openSockets := s.openSockets } := by
  simp [cleanupUser, hp]

theorem onDisconnect_fst (α : Type) (s : ServerState) (id : ConnId) :
    (onDisconnect α s id).1 =
      cleanupUser
        { s with openSockets := s.openSockets.filter (fun x => x ≠ id) } id := by
  rfl

/-! Section: Invariant preservation -/

theorem connect_inv (α : Type) (s : ServerState) (id : ConnId) (now : Int)
    (hI : Inv s) (hF : Fresh s id) : Inv (onConnect α s id now).1 := by
  obtain ⟨hS, hlen, hdis⟩ := hI
  obtain ⟨hid, hfq⟩ := hF
  cases hq : s.waitingQueue with
  | nil =>
    rw [onConnect_empty α s id now hq]
    refine ⟨hS, by simp, ?_⟩
    intro u hu
    simp only [List.mem_singleton] at hu
    rw [hu]
    exact hid
  | cons u rest =>
    have hrest : rest = [] := by
      rw [hq] at hlen
      simp only [List.length_cons] at hlen
      exact List.length_eq_zero.mp (by omega)
    subst hrest
    rw [onConnect_cons α s id now u [] hq]
    have hu_mem : u ∈ s.waitingQueue := by rw [hq]; simp
    exact ⟨hS.pairExtend hid (hdis u hu_mem), by simp, by simp⟩

theorem findNext_inv (α : Type) (s : ServerState) (id : ConnId)
    (hI : Inv s) : Inv (onFindNext α s id).1 := by
  obtain ⟨hS, hlen, hdis⟩ := hI
  cases hp : mapGet s.peers id with
  | some q =>
    have hS1 : Symm (mapDelete (mapDelete s.peers q) id) := hS.pairDelete hp
    have hid1 : mapGet (mapDelete (mapDelete s.peers q) id) id = none := by
      rw [mapGet_pairDelete]
      simp
    cases hq : s.waitingQueue with
    | nil =>
      rw [onFindNext_paired_nil α s id q hp hq]
      refine ⟨hS1, by simp, ?_⟩
      intro u hu
      simp only [List.mem_singleton] at hu
      rw [hu]
      exact hid1
    | cons u rest =>
      have hrest : rest = [] := by
        rw [hq] at hlen
        simp only [List.length_cons] at hlen
        exact List.length_eq_zero.mp (by omega)
      subst hrest
      rw [onFindNext_paired_cons α s id q u [] hp hq]
      have hu_mem : u ∈ s.waitingQueue := by rw [hq]; simp
      have hnp1 : mapGet (mapDelete (mapDelete s.peers q) id) u.socketId = none :=
        mapGet_pairDelete_of_none (hdis u hu_mem)
      exact ⟨hS1.pairExtend hid1 hnp1, by simp, by simp⟩
  | none =>
    cases hq : s.waitingQueue with
    | nil =>
      rw [onFindNext_unpaired_nil α s id hp hq]
      refine ⟨hS, by simp, ?_⟩
      intro u hu
      simp only [List.mem_singleton] at hu
      rw [hu]
      exact hp
    | cons u rest =>
      have hrest : rest = [] := by
        rw [hq] at hlen
        simp only [List.length_cons] at hlen
        exact List.length_eq_zero.mp (by omega)
      subst hrest
      rw [onFindNext_unpaired_cons α s id u [] hp hq]
      have hu_mem : u ∈ s.waitingQueue := by rw [hq]; simp
      exact ⟨hS.pairExtend hp (hdis u hu_mem), by simp, by simp⟩

theorem cleanup_inv (s : ServerState) (id : ConnId) (hI : Inv s) :
    Inv (cleanupUser s id) := by
  obtain ⟨hS, hlen, hdis⟩ := hI
  cases hp : mapGet s.peers id with
  | some q =>
    rw [cleanupUser_paired s id q hp]
    refine ⟨hS.pairDelete hp, le_trans (List.length_filter_le _ _) hlen, ?_⟩
    intro u hu
    rw [List.mem_filter] at hu
    exact mapGet_pairDelete_of_none (hdis u hu.1)
  | none =>
    rw [cleanupUser_unpaired s id hp]
    refine ⟨hS, le_trans (List.length_filter_le _ _) hlen, ?_⟩
    intro u hu
    rw [List.mem_filter] at hu
    exact hdis u hu.1

theorem disconnect_inv (α : Type) (s : ServerState) (id : ConnId)
    (hI : Inv s) : Inv (onDisconnect α s id).1 := by
  rw [onDisconnect_fst]
  exact cleanup_inv _ id ⟨hI.1, hI.2.1, hI.2.2⟩

theorem sweep_inv (α : Type) (s : ServerState) (now : Int)
    (hI : Inv s) : Inv (expireSweep α s now).1 := by
  obtain ⟨hS, hlen, hdis⟩ := hI
  dsimp only [expireSweep]
  refine ⟨hS, le_trans (List.length_filter_le _ _) hlen, ?_⟩
  intro u hu
  rw [List.mem_filter] at hu
  exact hdis u hu.1

/-- Every reachable state satisfies the full invariant. -/
theorem reachable_inv (s : ServerState) (h : Reachable s) : Inv s := by
  induction h with
  | init =>
    refine ⟨?_, by simp [initialState], by simp [initialState]⟩
    intro a b hab
    simp [initialState, mapGet] at hab
  | connect s id now hr hf ih => exact connect_inv Unit s id now ih hf
  | signal s id payload hr ih =>
    rw [onSignal_state]
    exact ih
  | findNext s id hr ih => exact findNext_inv Unit s id ih
  | disconnect s id hr ih => exact disconnect_inv Unit s id ih
  | sweep s now hr ih => exact sweep_inv Unit s now ih

/-! Section: Concrete reachable states used by the witnesses -/

/-- The state after the first client `"a"` connects at time `0`. -/
def stateA : ServerState := (onConnect Unit initialState "a" 0).1

/-- The state after `"a"` (waiting) and then `"b"` connect: the two are
paired and the queue is empty. -/
def stateAB : ServerState := (onConnect Unit stateA "b" 5).1

theorem reachable_stateA : Reachable stateA :=
  Reachable.connect initialState "a" 0 Reachable.init ⟨rfl, by decide⟩

theorem reachable_stateAB : Reachable stateAB :=
  Reachable.connect stateA "b" 5 reachable_stateA ⟨rfl, by decide⟩

/-! Section: Claim theorems -/

/-- Claim C1: whenever the waiting queue is non-empty, `OnConnect(id)` for
an id not already known pops the earliest waiting entry as partner, records
the pairing symmetrically in the peer table, and emits
`match-found{peer=id, isInitiator=true}` to the popped (longer-waiting)
partner and `match-found{peer=partner, isInitiator=false}` to `id`. -/
theorem connect_pops_head_and_pairs (α : Type) (s : ServerState)
    (id : ConnId) (now : Int) (u : WaitingUser) (rest : List WaitingUser)
    (hq : s.waitingQueue = u :: rest) (hF : Fresh s id) :
    (onConnect α s id now).1.waitingQueue = rest ∧
    mapGet (onConnect α s id now).1.peers id = some u.socketId ∧
    mapGet (onConnect α s id now).1.peers u.socketId = some id ∧
    (onConnect α s id now).2 =
      [(u.socketId, Msg.matchFound id true),
       (id, Msg.matchFound u.socketId false)] := by
  have hne : u.socketId ≠ id := hF.2 u (by rw [hq]; simp)
  rw [onConnect_cons α s id now u rest hq]
  refine ⟨rfl, ?_, ?_, rfl⟩
  · rw [mapGet_pairExtend, if_neg (Ne.symm hne), if_pos (rfl : id = id)]
  · rw [mapGet_pairExtend, if_pos (rfl : u.socketId = u.socketId)]

/-- Witness for C1 at the concrete state where `"a"` waits and `"b"`
connects. -/
theorem connect_pops_head_and_pairs_witness :
    (onConnect Unit stateA "b" 5).1.waitingQueue = [] ∧
    mapGet (onConnect Unit stateA "b" 5).1.peers "b" =
      some (WaitingUser.mk "a" 0).socketId ∧
    mapGet (onConnect Unit stateA "b" 5).1.peers
      (WaitingUser.mk "a" 0).socketId = some "b" ∧
    (onConnect Unit stateA "b" 5).2 =
      [((WaitingUser.mk "a" 0).socketId, Msg.matchFound "b" true),
       ("b", Msg.matchFound (WaitingUser.mk "a" 0).socketId false)] :=
  connect_pops_head_and_pairs Unit stateA "b" 5 ⟨"a", 0⟩ [] rfl ⟨rfl, by decide⟩

/-- Claim C2: in every reachable state, no connection id is both in the
waiting queue and a key of the peer table. -/
theorem queue_and_pairTable_disjoint (s : ServerState) (h : Reachable s)
    (id : ConnId) (hq : id ∈ s.waitingQueue.map WaitingUser.socketId) :
    mapGet s.peers id = none := by
  obtain ⟨-, -, hdis⟩ := reachable_inv s h
  rw [List.mem_map] at hq
  obtain ⟨u, hu, hid⟩ := hq
  rw [← hid]
  exact hdis u hu

/-- Witness for C2 at the reachable state where `"a"` is waiting. -/
theorem queue_and_pairTable_disjoint_witness :
    mapGet stateA.peers "a" = none :=
  queue_and_pairTable_disjoint stateA reachable_stateA "a" (by decide)

/-- Claim C4: in every reachable state the peer table is symmetric — if it
maps `a` to `b` it maps `b` to `a`. -/
theorem pairTable_symmetric (s : ServerState) (h : Reachable s)
    (a b : ConnId) (hab : mapGet s.peers a = some b) :
    mapGet s.peers b = some a :=
  (reachable_inv s h).1 a b hab

/-- Witness for C4 at the reachable state where `"a"` and `"b"` are paired. -/
theorem pairTable_symmetric_witness :
    mapGet stateAB.peers "a" = some "b" :=
  pairTable_symmetric stateAB reachable_stateAB "b" "a" rfl

/-- Claim C7: `OnConnect(id)` on an empty waiting queue appends a fresh
entry with the current timestamp at the tail, emits exactly one
`waiting-for-peer` to `id`, leaves the peer table untouched, and does
nothing else beyond registering the connection (its `userInfo` record and
its open socket). -/
theorem connect_empty_queue_enqueues (α : Type) (s : ServerState)
    (id : ConnId) (now : Int) (hq : s.waitingQueue = []) :
    (onConnect α s id now).1.waitingQueue = s.waitingQueue ++ [⟨id, now⟩] ∧
    (onConnect α s id now).1.peers = s.peers ∧
    (onConnect α s id now).2 = [(id, Msg.waitingForPeer)] ∧
    (onConnect α s id now).1.userInfo = mapSet s.userInfo id now ∧
    (onConnect α s id now).1.openSockets = id :: s.openSockets := by
  rw [onConnect_empty α s id now hq, hq]
  exact ⟨rfl, rfl, rfl, rfl, rfl⟩

/-- Witness for C7 at the initial state. -/
theorem connect_empty_queue_enqueues_witness :
    (onConnect Unit initialState "a" 0).1.waitingQueue =
      initialState.waitingQueue ++ [⟨"a", 0⟩] ∧
    (onConnect Unit initialState "a" 0).1.peers = initialState.peers ∧
    (onConnect Unit initialState "a" 0).2 = [("a", Msg.waitingForPeer)] ∧
    (onConnect Unit initialState "a" 0).1.userInfo =
      mapSet initialState.userInfo "a" 0 ∧
    (onConnect Unit initialState "a" 0).1.openSockets =
      "a" :: initialState.openSockets :=
  connect_empty_queue_enqueues Unit initialState "a" 0 rfl

/-- Claim C9: the periodic sweep (a one-minute interval job) keeps exactly
the queue entries whose age does not exceed the 5-minute timeout, emits
nothing, and leaves the peer table (and everything else) unchanged. -/
theorem sweep_removes_exactly_expired (α : Type) (s : ServerState)
    (now : Int) :
    (expireSweep α s now).1.peers = s.peers ∧
    (expireSweep α s now).1.userInfo = s.userInfo ∧
    (expireSweep α s now).1.openSockets = s.openSockets ∧
    (expireSweep α s now).2 = [] ∧
    (∀ u, u ∈ (expireSweep α s now).1.waitingQueue ↔
      u ∈ s.waitingQueue ∧ ¬(now - u.joinedAt > queueTimeoutMs)) ∧
    queueTimeoutMs = 5 * 60 * 1000 ∧ sweepIntervalMs = 60 * 1000 := by
  refine ⟨rfl, rfl, rfl, rfl, ?_, rfl, by decide⟩
  intro u
  dsimp only [expireSweep]
  rw [List.mem_filter]
  simp

/-- Claim C10: in the enhanced implementation, `OnFindNext(id)` for an
unpaired `id` sitting at the head of the waiting queue pairs `id` with
itself: the peer table maps `id` to `id` and `id` receives two
`match-found` messages naming itself as peer, one as initiator and one as
non-initiator, because the requester is not removed from the queue before
the match is drawn. -/
theorem findNext_self_pairs_queue_head (α : Type) (s : ServerState)
    (id : ConnId) (t : Int) (rest : List WaitingUser)
    (hp : mapGet s.peers id = none)
    (hq : s.waitingQueue = ⟨id, t⟩ :: rest) :
    mapGet (onFindNext α s id).1.peers id = some id ∧
    (onFindNext α s id).2 =
      [(id, Msg.matchFound id true), (id, Msg.matchFound id false)] ∧
    (onFindNext α s id).1.waitingQueue = rest := by
  rw [onFindNext_unpaired_cons α s id ⟨id, t⟩ rest hp hq]
  refine ⟨?_, rfl, rfl⟩
  simp [mapGet_pairExtend]

/-- Witness for C10: `"a"` waits alone and then sends `find-next`. -/
theorem findNext_self_pairs_queue_head_witness :
    mapGet (onFindNext Unit stateA "a").1.peers "a" = some "a" ∧
    (onFindNext Unit stateA "a").2 =
      [("a", Msg.matchFound "a" true), ("a", Msg.matchFound "a" false)] ∧
    (onFindNext Unit stateA "a").1.waitingQueue = [] :=
  findNext_self_pairs_queue_head Unit stateA "a" 0 [] rfl rfl

/-- Claim C3: `OnFindNext(id)` for a paired `id` first emits
`peer-disconnected` to the old partner and removes the pairing in both
directions; afterwards `id` is never still paired with its old partner and
is either freshly paired with the popped queue head or freshly enqueued
(with its connect-time record) on an empty queue. -/
theorem findNext_releases_and_rematches (α : Type) (s : ServerState)
    (id q : ConnId) (hr : Reachable s) (hp : mapGet s.peers id = some q) :
    (onFindNext α s id).2.head? = some (q, Msg.peerDisconnected) ∧
    mapGet (onFindNext α s id).1.peers id ≠ some q ∧
    mapGet (onFindNext α s id).1.peers q ≠ some id ∧
    ((∃ u rest, s.waitingQueue = u :: rest ∧
        mapGet (onFindNext α s id).1.peers id = some u.socketId ∧
        mapGet (onFindNext α s id).1.peers u.socketId = some id) ∨
     (s.waitingQueue = [] ∧
      (onFindNext α s id).1.waitingQueue =
        [⟨id, (mapGet s.userInfo id).getD 0⟩] ∧
      mapGet (onFindNext α s id).1.peers id = none)) := by
  obtain ⟨hS, hlen, hdis⟩ := reachable_inv s hr
  have hsymq : mapGet s.peers q = some id := hS id q hp
  cases hqu : s.waitingQueue with
  | nil =>
    rw [onFindNext_paired_nil α s id q hp hqu]
    have hid1 : mapGet (mapDelete (mapDelete s.peers q) id) id = none := by
      rw [mapGet_pairDelete, if_pos (rfl : id = id)]
    refine ⟨rfl, ?_, ?_, Or.inr ⟨rfl, rfl, hid1⟩⟩
    · rw [hid1]
      simp
    · rw [mapGet_pairDelete]
      by_cases h1 : q = id <;> simp [h1]
  | cons u rest =>
    rw [onFindNext_paired_cons α s id q u rest hp hqu]
    have hu_mem : u ∈ s.waitingQueue := by rw [hqu]; simp
    have hnp_none : mapGet s.peers u.socketId = none := hdis u hu_mem
    have hnp_id : u.socketId ≠ id := by
      intro h
      rw [h, hp] at hnp_none
      simp at hnp_none
    have hnp_q : u.socketId ≠ q := by
      intro h
      rw [h, hsymq] at hnp_none
      simp at hnp_none
    have hget_id :
        mapGet (mapSet (mapSet (mapDelete (mapDelete s.peers q) id) id
          u.socketId) u.socketId id) id = some u.socketId := by
      rw [mapGet_pairExtend, if_neg (Ne.symm hnp_id), if_pos (rfl : id = id)]
    have hget_np :
        mapGet (mapSet (mapSet (mapDelete (mapDelete s.peers q) id) id
          u.socketId) u.socketId id) u.socketId = some id := by
      rw [mapGet_pairExtend, if_pos (rfl : u.socketId = u.socketId)]
    refine ⟨rfl, ?_, ?_, Or.inl ⟨u, rest, rfl, hget_id, hget_np⟩⟩
    · rw [hget_id]
      intro hcon
      exact hnp_q (Option.some.inj hcon)
    · rw [mapGet_pairExtend, if_neg (Ne.symm hnp_q)]
      by_cases hqid : q = id
      · rw [if_pos hqid]
        intro hcon
        exact hnp_id (Option.some.inj hcon)
      · rw [if_neg hqid, mapGet_pairDelete, if_neg hqid, if_pos (rfl : q = q)]
        simp

/-- Witness for C3: `"a"` and `"b"` are paired, the queue is empty, and
`"b"` sends `find-next`. -/
theorem findNext_releases_and_rematches_witness :
    (onFindNext Unit stateAB "b").2.head? = some ("a", Msg.peerDisconnected) ∧
    mapGet (onFindNext Unit stateAB "b").1.peers "b" ≠ some "a" ∧
    mapGet (onFindNext Unit stateAB "b").1.peers "a" ≠ some "b" ∧
    ((∃ u rest, stateAB.waitingQueue = u :: rest ∧
        mapGet (onFindNext Unit stateAB "b").1.peers "b" = some u.socketId ∧
        mapGet (onFindNext Unit stateAB "b").1.peers u.socketId = some "b") ∨
     (stateAB.waitingQueue = [] ∧
      (onFindNext Unit stateAB "b").1.waitingQueue =
        [⟨"b", (mapGet stateAB.userInfo "b").getD 0⟩] ∧
      mapGet (onFindNext Unit stateAB "b").1.peers "b" = none)) :=
  findNext_releases_and_rematches Unit stateAB "b" "a" reachable_stateAB rfl

/-- Claim C5: a `signal` from a socket with no recorded partner, or whose
recorded partner's socket is no longer open, gets
`error{message: "No active peer connection"}` back, nothing is relayed,
and the state is unchanged. -/
theorem signal_without_live_peer_errors (α : Type) (s : ServerState)
    (id : ConnId) (payload : α)
    (h : mapGet s.peers id = none ∨
      ∃ q, mapGet s.peers id = some q ∧ s.openSockets.contains q = false) :
    onSignal α s id payload =
      (s, [(id, Msg.errorMsg "No active peer connection")]) := by
  cases h with
  | inl h => simp [onSignal, h]
  | inr h =>
    obtain ⟨q, hq, ho⟩ := h
    simp only [onSignal, hq]
    rw [ho]
    simp

/-- A paired state whose sockets have all gone away without a disconnect
event; used to witness the dead-partner branch of the signal handler. -/
def ghostPairState : ServerState := ⟨[], [("a", "b"), ("b", "a")], [], []⟩

/-- Witness for C5: `"a"` signals while its partner's socket is closed. -/
theorem signal_without_live_peer_errors_witness :
    onSignal Nat ghostPairState "a" 7 =
      (ghostPairState, [("a", Msg.errorMsg "No active peer connection")]) :=
  signal_without_live_peer_errors Nat ghostPairState "a" 7
    (Or.inr ⟨"b", rfl, rfl⟩)

/-- Claim C6: a `signal` from a socket whose recorded partner is still
open is relayed to that partner verbatim — the emitted `signal` message
carries the payload exactly as received, for an arbitrary payload type
the server never inspects — and the state is unchanged. -/
theorem signal_with_live_peer_relays_verbatim (α : Type) (s : ServerState)
    (id q : ConnId) (payload : α) (hq : mapGet s.peers id = some q)
    (ho : s.openSockets.contains q = true) :
    onSignal α s id payload = (s, [(q, Msg.signalMsg payload)]) := by
  simp only [onSignal, hq]
  rw [ho]
  simp

/-- Witness for C6: `"a"` signals `42` to its live partner `"b"`. -/
theorem signal_with_live_peer_relays_verbatim_witness :
    onSignal Nat stateAB "a" 42 = (stateAB, [("b", Msg.signalMsg 42)]) :=
  signal_with_live_peer_relays_verbatim Nat stateAB "a" "b" 42 rfl rfl

/-- Filtering twice with the same predicate equals filtering once. -/
theorem filter_idempotent {γ : Type} (p : γ → Bool) (l : List γ) :
    (l.filter p).filter p = l.filter p := by
  induction l with
  | nil => rfl
  | cons a t ih =>
    by_cases h : p a = true
    · simp [List.filter_cons, h, ih]
    · simp [List.filter_cons, h, ih]

theorem mapDelete_idem {β : Type} (m : List (ConnId × β)) (k : ConnId) :
    mapDelete (mapDelete m k) k = mapDelete m k := by
  induction m with
  | nil => rfl
  | cons p rest ih =>
    obtain ⟨x, y⟩ := p
    by_cases hx : x = k
    · simp [mapDelete, hx, ih]
    · simp [mapDelete, hx, ih]

/-- After `cleanupUser`, the cleaned id has no partner and cleaning again
would change none of the fields. -/
theorem cleanup_noop_fields (s : ServerState) (id : ConnId) :
    mapGet (cleanupUser s id).peers id = none ∧
    (cleanupUser s id).waitingQueue.filter (fun u => u.socketId ≠ id) =
      (cleanupUser s id).waitingQueue ∧
    mapDelete (cleanupUser s id).userInfo id = (cleanupUser s id).userInfo ∧
    (cleanupUser s id).openSockets = s.openSockets := by
  cases hp : mapGet s.peers id with
  | some q =>
    rw [cleanupUser_paired s id q hp]
    refine ⟨?_, filter_idempotent _ _, mapDelete_idem _ _, rfl⟩
    rw [mapGet_pairDelete, if_pos (rfl : id = id)]
  | none =>
    rw [cleanupUser_unpaired s id hp]
    exact ⟨hp, filter_idempotent _ _, mapDelete_idem _ _, rfl⟩

/-- `OnDisconnect` is a no-op on a state that already holds none of the
id's traces. -/
theorem disconnect_noop (α : Type) (t : ServerState) (id : ConnId)
    (h1 : mapGet t.peers id = none)
    (h2 : t.waitingQueue.filter (fun u => u.socketId ≠ id) = t.waitingQueue)
    (h3 : mapDelete t.userInfo id = t.userInfo)
    (h4 : t.openSockets.filter (fun x => x ≠ id) = t.openSockets) :
    onDisconnect α t id = (t, ([] : List (Emit α))) := by
  simp only [onDisconnect, h1]
  have hp' : mapGet ({ t with openSockets :=
      (t.openSockets.filter (fun x => x ≠ id)) } : ServerState).peers id =
      none := h1
  rw [cleanupUser_unpaired _ id hp']
  dsimp only
  rw [h2, h3, h4]

/-- Claim C8: `OnDisconnect` is idempotent — a second disconnect of the
same id leaves the state exactly as after the first and emits nothing. -/
theorem disconnect_idempotent (α : Type) (s : ServerState) (id : ConnId) :
    onDisconnect α (onDisconnect α s id).1 id =
      ((onDisconnect α s id).1, ([] : List (Emit α))) := by
  rw [onDisconnect_fst α s id]
  obtain ⟨h1, h2, h3, h4⟩ := cleanup_noop_fields
    { s with openSockets := s.openSockets.filter (fun x => x ≠ id) } id
  refine disconnect_noop α _ id h1 h2 h3 ?_
  rw [h4]
  exact filter_idempotent _ _

end Anologia
